import Mathlib

/-!
Shallow embedding of the snowflake ID generator in
`review-service/pkg/snowflake/snowflake.go`, together with proofs of the
specified properties.

Modelling conventions:
* Go `int64` values are modelled as `Int` together with explicit
  two's-complement reduction `% 2^64` wherever Go arithmetic can wrap
  (shifts and bitwise operations on packed IDs).
* Each call to `time.Now().UnixMilli()` is modelled as consuming the next
  element of an explicit list of clock readings.  A busy-wait loop that
  would spin forever in Go corresponds to exhausting the reading list, in
  which case the call returns `none` (it never completes).
* The `sync.Mutex` serialises the whole critical section, so concurrent
  executions are exactly interleavings of complete `nextID` calls; we model
  sequential composition of calls.
* `time.LoadLocation("Asia/Shanghai")` and `time.ParseInLocation` are
  external to the package and are modelled as oracle parameters: a `Bool`
  saying whether the timezone database load succeeds, and a partial parse
  function `String → Option Int` returning the `UnixMilli` value of the
  parsed date.
-/

namespace SnowflakeGo

/-! ## Bit-allocation constants (snowflake.go lines 10-17) -/

def timestampBits : Nat := 41
def machineIDBits : Nat := 10
def sequenceBits : Nat := 12

/-- `maxMachineID = (1 << machineIDBits) - 1` -/
def maxMachineID : Int := ((1 <<< machineIDBits : Nat) : Int) - 1

/-- `maxSequence = (1 << sequenceBits) - 1` -/
def maxSequence : Int := ((1 <<< sequenceBits : Nat) : Int) - 1

/-! ## int64 two's-complement semantics -/

/-- The two's-complement representative of an `int64` value, a natural
number in `[0, 2^64)`. -/
def toUInt64 (x : Int) : Nat := (x % (2 ^ 64 : Int)).toNat

/-- Reinterpret a natural number in `[0, 2^64)` as a signed `int64`. -/
def ofUInt64 (n : Nat) : Int :=
  if n < 2 ^ 63 then (n : Int) else (n : Int) - 2 ^ 64

/-- Go `<<` on `int64`: shift the two's-complement bits left, discarding
overflow. -/
def int64Shl (x : Int) (k : Nat) : Int :=
  ofUInt64 ((toUInt64 x <<< k) % 2 ^ 64)

/-- Go `|` on `int64`: bitwise or of the two's-complement bits. -/
def int64Or (x y : Int) : Int :=
  ofUInt64 ((toUInt64 x) ||| (toUInt64 y))

/-- Go `&` on `int64`: bitwise and of the two's-complement bits. -/
def int64And (x y : Int) : Int :=
  ofUInt64 ((toUInt64 x) &&& (toUInt64 y))

/-- Go `>>` on `int64` is an arithmetic (sign-propagating) shift, which on
the mathematical integers is exactly `Int.shiftRight`. -/
def int64Shr (x : Int) (k : Nat) : Int := x >>> k

/-! ## Data model (snowflake.go lines 20-40) -/

/-- `Config` of snowflake.go (lines 20-23). -/
structure Config where
  MachineID : Int
  StartTime : String
deriving DecidableEq, Repr

/-- `Snowflake` of snowflake.go (lines 26-32); the mutex is represented by
sequential composition of calls. -/
structure Snowflake where
  startTime     : Int
  machineID     : Int
  lastTimestamp : Int
  sequence      : Int
deriving DecidableEq, Repr

/-- `defaultStartTime = 1672502400000` (line 37). -/
def defaultStartTime : Int := 1672502400000

deriving instance DecidableEq for Except

/-! ## Init (snowflake.go lines 44-83) -/

/-- The failure modes of `Init` (each a distinct `panic` in the source). -/
inductive InitError where
  | invalidMachineID
  | tzLoadFailed
  | invalidStartTime
  | startTimeInFuture
deriving DecidableEq, Repr

/-- Steps 1-2 of `Init`: validate the machine ID and resolve the start
time string to a millisecond timestamp (lines 46-68).  `loadLocOK` models
whether `time.LoadLocation("Asia/Shanghai")` succeeds; `parseInLoc` models
`time.ParseInLocation(timeLayout, ·, loc).UnixMilli()`. -/
def resolveStartTime (loadLocOK : Bool) (parseInLoc : String → Option Int)
    (cfg : Config) : Except InitError Int :=
  if cfg.StartTime = "" then
    Except.ok defaultStartTime
  else if ¬ loadLocOK then
    Except.error InitError.tzLoadFailed
  else
    match parseInLoc cfg.StartTime with
    | none => Except.error InitError.invalidStartTime
    | some t => Except.ok t

/-- `Init` (lines 44-83): validate the machine ID, resolve the start time,
reject a future start time, and build the instance.  `now` models
`time.Now().UnixMilli()` at line 71. -/
def Init (loadLocOK : Bool) (parseInLoc : String → Option Int)
    (cfg : Config) (now : Int) : Except InitError Snowflake :=
  if cfg.MachineID < 0 ∨ cfg.MachineID > maxMachineID then
    Except.error InitError.invalidMachineID
  else
    match resolveStartTime loadLocOK parseInLoc cfg with
    | Except.error e => Except.error e
    | Except.ok startTime =>
      if startTime > now then
        Except.error InitError.startTimeInFuture
      else
        Except.ok { startTime := startTime, machineID := cfg.MachineID,
                    lastTimestamp := -1, sequence := 0 }

/-- The effect of a call to `Init` on the global `instance` variable
(line 34 / line 77): a panic (error) leaves it unchanged, success replaces
it. -/
def InitGlobal (inst : Option Snowflake) (loadLocOK : Bool)
    (parseInLoc : String → Option Int) (cfg : Config) (now : Int) :
    Option Snowflake × Option InitError :=
  match Init loadLocOK parseInLoc cfg now with
  | Except.error e => (inst, some e)
  | Except.ok s => (some s, none)

/-! ## nextID (snowflake.go lines 94-130) -/

/-- A Go busy-wait loop `for now <= last { now = time.Now().UnixMilli() }`
over an explicit list of future clock readings.  Returns the value of `now`
on loop exit together with the unconsumed readings, or `none` if the
readings run out while the loop condition still holds (the Go loop would
still be spinning). -/
def busyWait (last now : Int) (ts : List Int) : Option (Int × List Int) :=
  if now ≤ last then
    match ts with
    | [] => none
    | t :: ts' => busyWait last t ts'
  else
    some (now, ts)

/-- The packed ID computed at lines 127-129 from the (already updated)
fields of the instance:
`(now-s.startTime)<<(machineIDBits+sequenceBits) | s.machineID<<sequenceBits | s.sequence`. -/
def packID (s : Snowflake) : Int :=
  int64Or
    (int64Or (int64Shl (s.lastTimestamp - s.startTime) (machineIDBits + sequenceBits))
             (int64Shl s.machineID sequenceBits))
    s.sequence

/-- Step 1 of `nextID` (lines 100-106): clock-rollback handling.  If the
fresh reading `t` is earlier than `lastTimestamp`, spin
(`for now <= s.lastTimestamp`) until the clock moves on. -/
def rollbackStep (s : Snowflake) (t : Int) (ts : List Int) : Option (Int × List Int) :=
  if t < s.lastTimestamp then busyWait s.lastTimestamp t ts else some (t, ts)

/-- Steps 2-3 of `nextID` (lines 108-121): compute the new sequence number
and the timestamp finally recorded, spinning past an exhausted
millisecond.  Returns `(sequence, now, remaining readings)`. -/
def seqStep (s : Snowflake) (now : Int) (ts : List Int) :
    Option (Int × Int × List Int) :=
  if now = s.lastTimestamp then
    if s.sequence + 1 > maxSequence then
      match busyWait s.lastTimestamp now ts with
      | none => none
      | some (now2, ts2) => some (0, now2, ts2)
    else
      some (s.sequence + 1, now, ts)
  else
    some (0, now, ts)

/-- `nextID` (lines 94-130).  The list supplies the successive values
returned by `time.Now().UnixMilli()` during this call; the head is the
read at line 98.  On completion the result is the returned ID, the updated
instance and the unconsumed readings; `none` means the Go code is still
busy-waiting when the supplied readings run out. -/
def nextID (s : Snowflake) : List Int → Option (Int × Snowflake × List Int)
  | [] => none
  | t :: ts =>
    match rollbackStep s t ts with
    | none => none
    | some (now, ts1) =>
      match seqStep s now ts1 with
      | none => none
      | some (seq, now2, ts2) =>
        -- lines 124-129: record the timestamp and pack the ID
        let s' : Snowflake := { s with lastTimestamp := now2, sequence := seq }
        some (packID s', s', ts2)

/-! ## GetID (snowflake.go lines 86-91) -/

inductive GetError where
  | notInitialized
deriving DecidableEq, Repr

/-- `GetID` acting on the global `instance`: returns the call outcome and
the state of the global afterwards.  `Except.error` models the
not-initialized panic; `Except.ok none` models a call that never completes
(busy-wait with the supplied readings exhausted). -/
def GetIDGlobal (inst : Option Snowflake) (ts : List Int) :
    Except GetError (Option (Int × Snowflake × List Int)) × Option Snowflake :=
  match inst with
  | none => (Except.error GetError.notInitialized, inst)
  | some s =>
    match nextID s ts with
    | none => (Except.ok none, some s)
    | some (id, s', rest) => (Except.ok (some (id, s', rest)), some s')

/-! ## Derived notions used by the specification -/

/-- Well-formedness of the mutable state: the sequence counter lies in the
12-bit range. -/
def WF (s : Snowflake) : Prop := 0 ≤ s.sequence ∧ s.sequence ≤ maxSequence

instance (s : Snowflake) : Decidable (WF s) := by
  unfold WF; infer_instance

/-- Strict lexicographic order on (timestamp, sequence) pairs. -/
def lexLt (a b : Int × Int) : Prop :=
  a.1 < b.1 ∨ (a.1 = b.1 ∧ a.2 < b.2)

instance (a b : Int × Int) : Decidable (lexLt a b) := by
  unfold lexLt; infer_instance

/-- The (timestamp, sequence) pair of a state. -/
def pairOf (s : Snowflake) : Int × Int := (s.lastTimestamp, s.sequence)

/-- The observable outcome of one completed `nextID` call: the returned ID
and the (lastTimestamp, sequence) pair it was packed from. -/
structure CallOut where
  id   : Int
  last : Int
  seq  : Int
deriving DecidableEq, Repr

/-- Run one `nextID` call per element of `tss`, each with its own list of
clock readings, threading the instance state; `none` if any call fails to
complete. -/
def runCalls (s : Snowflake) : List (List Int) → Option (List CallOut × Snowflake)
  | [] => some ([], s)
  | ts :: tss =>
    match nextID s ts with
    | none => none
    | some (id, s', _) =>
      match runCalls s' tss with
      | none => none
      | some (outs, sEnd) =>
        some (⟨id, s'.lastTimestamp, s'.sequence⟩ :: outs, sEnd)

/-! ## Properties of the busy-wait loop -/

theorem busyWait_gt : ∀ {ts : List Int} {last now now' : Int} {ts' : List Int},
    busyWait last now ts = some (now', ts') → last < now' := by
  intro ts
  induction ts with
  | nil =>
    intro last now now' ts' h
    unfold busyWait at h
    split at h
    · simp at h
    · next hgt =>
      simp only [Option.some.injEq, Prod.mk.injEq] at h
      omega
  | cons t rest ih =>
    intro last now now' ts' h
    unfold busyWait at h
    split at h
    · exact ih h
    · next hgt =>
      simp only [Option.some.injEq, Prod.mk.injEq] at h
      omega

/-- Full characterisation of a terminating busy-wait: either the loop body
never ran, or the result is the first supplied reading that strictly
exceeds `last`, every reading consumed before it being `≤ last`. -/
theorem busyWait_sound : ∀ {ts : List Int} {last now now' : Int} {ts' : List Int},
    busyWait last now ts = some (now', ts') →
    (last < now ∧ now' = now ∧ ts' = ts) ∨
    (now ≤ last ∧ ∃ pre, ts = pre ++ now' :: ts' ∧ (∀ u ∈ pre, u ≤ last) ∧ last < now') := by
  intro ts
  induction ts with
  | nil =>
    intro last now now' ts' h
    unfold busyWait at h
    split at h
    · simp at h
    · next hgt =>
      simp only [Option.some.injEq, Prod.mk.injEq] at h
      exact Or.inl ⟨by omega, h.1.symm, h.2.symm⟩
  | cons t rest ih =>
    intro last now now' ts' h
    unfold busyWait at h
    split at h
    · next hle =>
      rcases ih h with ⟨h1, h2, h3⟩ | ⟨h1, pre, h2, h3, h4⟩
      · exact Or.inr ⟨hle, [], by simp [h2, h3], by simp, by omega⟩
      · refine Or.inr ⟨hle, t :: pre, by simp [h2], ?_, h4⟩
        intro u hu
        rcases List.mem_cons.mp hu with hu | hu
        · omega
        · exact h3 u hu
    · next hgt =>
      simp only [Option.some.injEq, Prod.mk.injEq] at h
      exact Or.inl ⟨by omega, h.1.symm, h.2.symm⟩

theorem busyWait_mem {ts : List Int} {last now now' : Int} {ts' : List Int}
    (h : busyWait last now ts = some (now', ts')) :
    (now' = now ∨ now' ∈ ts) ∧ ts'.Sublist ts := by
  rcases busyWait_sound h with ⟨_, h2, h3⟩ | ⟨_, pre, h2, _, _⟩
  · exact ⟨Or.inl h2, h3 ▸ List.Sublist.refl ts⟩
  · constructor
    · exact Or.inr (h2 ▸ List.mem_append_right pre (List.mem_cons_self _ _))
    · rw [h2]
      exact (List.sublist_cons_self now' ts').trans (List.sublist_append_right pre _)

/-! ## Characterisation of a completed `nextID` call -/

theorem rollbackStep_sound {s : Snowflake} {t : Int} {ts : List Int}
    {now : Int} {ts1 : List Int}
    (h : rollbackStep s t ts = some (now, ts1)) :
    s.lastTimestamp ≤ now ∧ (now = t ∨ now ∈ ts) ∧ ts1.Sublist ts := by
  unfold rollbackStep at h
  split at h
  · next hlt =>
    refine ⟨le_of_lt (busyWait_gt h), (busyWait_mem h).1, (busyWait_mem h).2⟩
  · next hge =>
    simp only [Option.some.injEq, Prod.mk.injEq] at h
    refine ⟨by omega, Or.inl h.1.symm, h.2 ▸ List.Sublist.refl ts⟩

theorem seqStep_sound {s : Snowflake} {now : Int} {ts : List Int}
    {seq now2 : Int} {ts2 : List Int}
    (h : seqStep s now ts = some (seq, now2, ts2))
    (hge : s.lastTimestamp ≤ now) :
    (now2 = now ∨ now2 ∈ ts) ∧ ts2.Sublist ts ∧
    ((s.lastTimestamp < now2 ∧ seq = 0) ∨
     (now2 = s.lastTimestamp ∧ seq = s.sequence + 1 ∧ s.sequence + 1 ≤ maxSequence)) := by
  unfold seqStep at h
  split at h
  · next heq =>
    split at h
    · next hover =>
      cases hbw : busyWait s.lastTimestamp now ts with
      | none => rw [hbw] at h; simp at h
      | some p =>
        obtain ⟨n2, l2⟩ := p
        rw [hbw] at h
        simp only [Option.some.injEq, Prod.mk.injEq] at h
        obtain ⟨h1, h2, h3⟩ := h
        have hgt := busyWait_gt hbw
        have hmem := busyWait_mem hbw
        subst h1 h2 h3
        exact ⟨hmem.1, hmem.2, Or.inl ⟨hgt, rfl⟩⟩
    · next hover =>
      simp only [Option.some.injEq, Prod.mk.injEq] at h
      obtain ⟨h1, h2, h3⟩ := h
      subst h1 h2 h3
      exact ⟨Or.inl rfl, List.Sublist.refl ts, Or.inr ⟨heq, rfl, by omega⟩⟩
  · next hne =>
    simp only [Option.some.injEq, Prod.mk.injEq] at h
    obtain ⟨h1, h2, h3⟩ := h
    subst h1 h2 h3
    exact ⟨Or.inl rfl, List.Sublist.refl ts, Or.inl ⟨by omega, rfl⟩⟩

/-- Everything a completed `nextID` call guarantees about its result:
the immutable configuration is preserved, the returned ID is the pack of
the new state, the (timestamp, sequence) pair strictly increases
lexicographically, the recorded timestamp is one of the supplied clock
readings, the unconsumed readings are a sublist of the supplied ones, and
the sequence stays in its 12-bit range. -/
theorem nextID_sound {s : Snowflake} {ts : List Int} {id : Int}
    {s' : Snowflake} {ts' : List Int}
    (h : nextID s ts = some (id, s', ts')) :
    s'.startTime = s.startTime ∧ s'.machineID = s.machineID ∧
    id = packID s' ∧
    lexLt (pairOf s) (pairOf s') ∧
    s'.lastTimestamp ∈ ts ∧ ts'.Sublist ts ∧
    ((s.lastTimestamp < s'.lastTimestamp ∧ s'.sequence = 0) ∨
     (s'.lastTimestamp = s.lastTimestamp ∧ s'.sequence = s.sequence + 1 ∧
      s.sequence + 1 ≤ maxSequence)) := by
  cases ts with
  | nil => simp [nextID] at h
  | cons t rest =>
    simp only [nextID] at h
    cases hrb : rollbackStep s t rest with
    | none => rw [hrb] at h; simp at h
    | some p =>
      obtain ⟨now, ts1⟩ := p
      rw [hrb] at h
      dsimp only at h
      cases hss : seqStep s now ts1 with
      | none => rw [hss] at h; simp at h
      | some q =>
        obtain ⟨seq, now2, ts2⟩ := q
        rw [hss] at h
        dsimp only at h
        simp only [Option.some.injEq, Prod.mk.injEq] at h
        obtain ⟨hid, hs', hts'⟩ := h
        obtain ⟨hge, hmem1, hsub1⟩ := rollbackStep_sound hrb
        obtain ⟨hmem2, hsub2, hcase⟩ := seqStep_sound hss hge
        subst hts'
        have hlast : s'.lastTimestamp = now2 := by rw [← hs']
        have hseq : s'.sequence = seq := by rw [← hs']
        have hstart : s'.startTime = s.startTime := by rw [← hs']
        have hmach : s'.machineID = s.machineID := by rw [← hs']
        refine ⟨hstart, hmach, by rw [← hs', hid], ?_, ?_, (hsub2.trans hsub1).trans (List.sublist_cons_self t rest), ?_⟩
        · unfold lexLt pairOf
          rcases hcase with ⟨h1, _⟩ | ⟨h1, h2, _⟩

          · exact Or.inl (by omega)
          · exact Or.inr ⟨by omega, by omega⟩
        · rw [hlast]
          rcases hmem2 with h2 | h2
          · rcases hmem1 with h1 | h1
            · exact h2 ▸ h1 ▸ List.mem_cons_self t rest
            · exact h2 ▸ List.mem_cons_of_mem t h1
          · exact List.mem_cons_of_mem t (hsub1.mem h2)
        · rcases hcase with ⟨h1, h2⟩ | ⟨h1, h2, h3⟩
          · exact Or.inl ⟨by omega, by omega⟩
          · exact Or.inr ⟨by omega, by omega, h3⟩

/-! ## Arithmetic meaning of the packed ID -/

/-- The pack expression of lines 127-129 as a function of the three
fields. -/
def packVal (off m q : Int) : Int :=
  int64Or
    (int64Or (int64Shl off (machineIDBits + sequenceBits))
             (int64Shl m sequenceBits))
    q

theorem packID_eq_packVal (s : Snowflake) :
    packID s = packVal (s.lastTimestamp - s.startTime) s.machineID s.sequence := rfl

theorem toUInt64_natCast {n : Nat} (h : n < 2 ^ 64) : toUInt64 (n : Int) = n := by
  unfold toUInt64
  rw [Int.emod_eq_of_lt (by positivity) (by exact_mod_cast h)]
  simp

theorem ofUInt64_of_lt {n : Nat} (h : n < 2 ^ 63) : ofUInt64 n = (n : Int) := by
  unfold ofUInt64
  rw [if_pos h]

theorem int64Shl_natCast {a : Nat} {k : Nat} (h : a <<< k < 2 ^ 63) :
    int64Shl (a : Int) k = ((a <<< k : Nat) : Int) := by
  unfold int64Shl
  have h64 : a <<< k < 2 ^ 64 := lt_trans h (by norm_num)
  have ha : a < 2 ^ 64 := by
    have := Nat.shiftLeft_eq a k
    have h2 : (1 : Nat) ≤ 2 ^ k := Nat.one_le_two_pow
    nlinarith [Nat.shiftLeft_eq a k ▸ h64]
  rw [toUInt64_natCast ha, Nat.mod_eq_of_lt h64, ofUInt64_of_lt h]

theorem int64Or_natCast {x y : Nat} (hx : x < 2 ^ 63) (hy : y < 2 ^ 63) :
    int64Or (x : Int) (y : Int) = ((x ||| y : Nat) : Int) := by
  unfold int64Or
  rw [toUInt64_natCast (lt_trans hx (by norm_num)),
      toUInt64_natCast (lt_trans hy (by norm_num)),
      ofUInt64_of_lt (Nat.or_lt_two_pow hx hy)]

theorem int64And_natCast {x y : Nat} (hx : x < 2 ^ 63) (hy : y < 2 ^ 63) :
    int64And (x : Int) (y : Int) = ((x &&& y : Nat) : Int) := by
  unfold int64And
  rw [toUInt64_natCast (lt_trans hx (by norm_num)),
      toUInt64_natCast (lt_trans hy (by norm_num)),
      ofUInt64_of_lt (lt_of_le_of_lt Nat.and_le_left hx)]

theorem int64Shr_natCast (x : Nat) (k : Nat) :
    int64Shr (x : Int) k = ((x >>> k : Nat) : Int) := rfl

/-- The three fields occupy disjoint bit ranges, so the bitwise-or pack is
plain positional arithmetic, and the result fits in 63 bits. -/
theorem packNat {a b c : Nat} (ha : a < 2 ^ 41) (hb : b < 2 ^ 10) (hc : c < 2 ^ 12) :
    (a <<< 22) ||| (b <<< 12) ||| c = a * 2 ^ 22 + b * 2 ^ 12 + c ∧
    a * 2 ^ 22 + b * 2 ^ 12 + c < 2 ^ 63 := by
  have hbound : a * 2 ^ 22 + b * 2 ^ 12 + c < 2 ^ 63 := by
    norm_num at ha hb hc ⊢
    omega
  have hb22 : b * 2 ^ 12 < 2 ^ 22 := by
    norm_num at hb ⊢
    omega
  have e1 : 2 ^ 22 * a + b * 2 ^ 12 = 2 ^ 22 * a ||| b * 2 ^ 12 :=
    Nat.mul_add_lt_is_or hb22 a
  have e2 : 2 ^ 12 * (2 ^ 10 * a + b) + c = 2 ^ 12 * (2 ^ 10 * a + b) ||| c :=
    Nat.mul_add_lt_is_or hc _
  refine ⟨?_, hbound⟩
  rw [Nat.shiftLeft_eq, Nat.shiftLeft_eq]
  have inner : a * 2 ^ 22 ||| b * 2 ^ 12 = 2 ^ 12 * (2 ^ 10 * a + b) := by
    rw [mul_comm a, ← e1]
    ring
  rw [inner, ← e2]
  ring

/-- The packed ID as plain integer arithmetic, under the field-range
preconditions of the design. -/
theorem packVal_eq {off m q : Int} (h1 : 0 ≤ off) (h2 : off < 2 ^ 41)
    (h3 : 0 ≤ m) (h4 : m < 2 ^ 10) (h5 : 0 ≤ q) (h6 : q < 2 ^ 12) :
    packVal off m q = off * 2 ^ 22 + m * 2 ^ 12 + q := by
  obtain ⟨a, rfl⟩ := Int.eq_ofNat_of_zero_le h1
  obtain ⟨b, rfl⟩ := Int.eq_ofNat_of_zero_le h3
  obtain ⟨c, rfl⟩ := Int.eq_ofNat_of_zero_le h5
  have ha : a < 2 ^ 41 := by exact_mod_cast h2
  have hb : b < 2 ^ 10 := by exact_mod_cast h4
  have hc : c < 2 ^ 12 := by exact_mod_cast h6
  obtain ⟨hor, hlt⟩ := packNat ha hb hc
  have hsa : a <<< 22 < 2 ^ 63 := by
    rw [Nat.shiftLeft_eq]
    norm_num at ha ⊢
    omega
  have hsb : b <<< 12 < 2 ^ 63 := by
    rw [Nat.shiftLeft_eq]
    norm_num at hb ⊢
    omega
  have hshow : machineIDBits + sequenceBits = 22 := rfl
  unfold packVal
  rw [hshow]
  show int64Or (int64Or (int64Shl (a : Int) 22) (int64Shl (b : Int) sequenceBits)) (c : Int) = _
  rw [show sequenceBits = 12 from rfl]
  rw [int64Shl_natCast hsa, int64Shl_natCast hsb,
      int64Or_natCast hsa hsb,
      int64Or_natCast (Nat.or_lt_two_pow hsa hsb) (lt_trans hc (by norm_num)),
      hor]
  push_cast
  ring

/-- The packed ID is non-negative and fits in 63 bits (sign bit zero). -/
theorem packVal_range {off m q : Int} (h1 : 0 ≤ off) (h2 : off < 2 ^ 41)
    (h3 : 0 ≤ m) (h4 : m < 2 ^ 10) (h5 : 0 ≤ q) (h6 : q < 2 ^ 12) :
    0 ≤ packVal off m q ∧ packVal off m q < 2 ^ 63 := by
  rw [packVal_eq h1 h2 h3 h4 h5 h6]
  constructor
  · positivity
  · norm_num at h2 h4 h6 ⊢
    omega

/-- The pack is strictly monotone in the lexicographic order on
(timestamp offset, sequence) for a fixed machine ID. -/
theorem packVal_lt {off1 q1 off2 q2 m : Int}
    (h1 : 0 ≤ off1) (h2 : off2 < 2 ^ 41) (h3 : 0 ≤ m) (h4 : m < 2 ^ 10)
    (h5 : 0 ≤ q1) (h6 : q1 < 2 ^ 12) (h7 : 0 ≤ q2) (h8 : q2 < 2 ^ 12)
    (h9 : 0 ≤ off2)
    (hlex : off1 < off2 ∨ (off1 = off2 ∧ q1 < q2)) :
    packVal off1 m q1 < packVal off2 m q2 := by
  have h2' : off1 < 2 ^ 41 := by
    rcases hlex with h | ⟨h, _⟩
    · omega
    · omega
  rw [packVal_eq h1 h2' h3 h4 h5 h6, packVal_eq h9 h2 h3 h4 h7 h8]
  norm_num at h6 h7 ⊢
  rcases hlex with h | ⟨h, h'⟩
  · omega
  · omega

/-- Masking the low 12 bits of a packed ID recovers the sequence;
shifting right by 12 and masking 10 bits recovers the machine ID. -/
theorem packVal_extract {off m q : Int} (h1 : 0 ≤ off) (h2 : off < 2 ^ 41)
    (h3 : 0 ≤ m) (h4 : m < 2 ^ 10) (h5 : 0 ≤ q) (h6 : q < 2 ^ 12) :
    int64And (packVal off m q) maxSequence = q ∧
    int64And (int64Shr (packVal off m q) sequenceBits) maxMachineID = m := by
  obtain ⟨a, rfl⟩ := Int.eq_ofNat_of_zero_le h1
  obtain ⟨b, rfl⟩ := Int.eq_ofNat_of_zero_le h3
  obtain ⟨c, rfl⟩ := Int.eq_ofNat_of_zero_le h5
  have ha : a < 2 ^ 41 := by exact_mod_cast h2
  have hb : b < 2 ^ 10 := by exact_mod_cast h4
  have hc : c < 2 ^ 12 := by exact_mod_cast h6
  have hNlt : a * 2 ^ 22 + b * 2 ^ 12 + c < 2 ^ 63 := (packNat ha hb hc).2
  have hN : packVal (a : Int) (b : Int) (c : Int) =
      ((a * 2 ^ 22 + b * 2 ^ 12 + c : Nat) : Int) := by
    rw [packVal_eq h1 h2 h3 h4 h5 h6]
    push_cast
    ring
  have hmaxSeq : maxSequence = ((4095 : Nat) : Int) := by decide
  have hmaxMach : maxMachineID = ((1023 : Nat) : Int) := by decide
  constructor
  · rw [hN, hmaxSeq, int64And_natCast hNlt (by norm_num)]
    have : (a * 2 ^ 22 + b * 2 ^ 12 + c) &&& 4095 =
        (a * 2 ^ 22 + b * 2 ^ 12 + c) % 2 ^ 12 := by
      have := Nat.and_pow_two_sub_one_eq_mod (a * 2 ^ 22 + b * 2 ^ 12 + c) 12
      norm_num at this ⊢
      exact this
    rw [this]
    have : (a * 2 ^ 22 + b * 2 ^ 12 + c) % 2 ^ 12 = c := by
      norm_num at hc ⊢
      omega
    rw [this]
  · rw [hN, hmaxMach, int64Shr_natCast, Nat.shiftRight_eq_div_pow,
        int64And_natCast (by
          refine lt_of_le_of_lt (Nat.div_le_self _ _) hNlt) (by norm_num)]
    have : (a * 2 ^ 22 + b * 2 ^ 12 + c) / 2 ^ sequenceBits &&& 1023 =
        (a * 2 ^ 22 + b * 2 ^ 12 + c) / 2 ^ sequenceBits % 2 ^ 10 := by
      have := Nat.and_pow_two_sub_one_eq_mod
        ((a * 2 ^ 22 + b * 2 ^ 12 + c) / 2 ^ sequenceBits) 10
      norm_num at this ⊢
      exact this
    rw [this]
    have : (a * 2 ^ 22 + b * 2 ^ 12 + c) / 2 ^ sequenceBits % 2 ^ 10 = b := by
      show (a * 2 ^ 22 + b * 2 ^ 12 + c) / 2 ^ 12 % 2 ^ 10 = b
      norm_num at hb hc ⊢
      omega
    rw [this]

/-! ## Clock readings within the 41-bit lifetime -/

/-- All clock readings lie at or after the configured epoch and within its
41-bit lifetime. -/
def InRange (start : Int) (ts : List Int) : Prop :=
  ∀ t ∈ ts, start ≤ t ∧ t - start < 2 ^ timestampBits

instance (start : Int) (ts : List Int) : Decidable (InRange start ts) := by
  unfold InRange
  infer_instance

/-- The field-range facts needed about the state a completed call packs
its ID from. -/
theorem nextID_fields {s : Snowflake} {ts : List Int} {id : Int}
    {s' : Snowflake} {ts' : List Int}
    (h : nextID s ts = some (id, s', ts'))
    (hWF : WF s) (hR : InRange s.startTime ts) :
    id = packVal (s'.lastTimestamp - s'.startTime) s'.machineID s'.sequence ∧
    0 ≤ s'.lastTimestamp - s'.startTime ∧
    s'.lastTimestamp - s'.startTime < 2 ^ 41 ∧
    WF s' ∧ s'.startTime = s.startTime ∧ s'.machineID = s.machineID ∧
    lexLt (pairOf s) (pairOf s') ∧ InRange s.startTime ts' := by
  obtain ⟨hst, hmach, hid, hlex, hmem, hsub, hcase⟩ := nextID_sound h
  obtain ⟨hts1, hts2⟩ := hR s'.lastTimestamp hmem
  have hWF' : WF s' := by
    unfold WF at hWF ⊢
    rcases hcase with ⟨_, h2⟩ | ⟨_, h2, h3⟩
    · exact ⟨by rw [h2], by rw [h2]; decide⟩
    · constructor <;> omega
  refine ⟨by rw [hid, packID_eq_packVal], by omega, ?_, hWF', hst, hmach, hlex, ?_⟩
  · rw [hst]
    have : (2 : Int) ^ timestampBits = 2 ^ 41 := by norm_num [timestampBits]
    omega
  · intro u hu
    exact hR u (hsub.mem hu)

theorem mach_lt_pow {m : Int} (h : m ≤ maxMachineID) : m < 2 ^ 10 := by
  rw [show maxMachineID = 1023 from by decide] at h
  norm_num
  omega

theorem seq_lt_pow {q : Int} (h : q ≤ maxSequence) : q < 2 ^ 12 := by
  rw [show maxSequence = 4095 from by decide] at h
  norm_num
  omega

theorem lexLt_trans {a b c : Int × Int} (h1 : lexLt a b) (h2 : lexLt b c) :
    lexLt a c := by
  unfold lexLt at h1 h2 ⊢
  rcases h1 with h1 | ⟨h1, h1'⟩ <;> rcases h2 with h2 | ⟨h2, h2'⟩
  · exact Or.inl (by omega)
  · exact Or.inl (by omega)
  · exact Or.inl (by omega)
  · exact Or.inr ⟨by omega, by omega⟩

/-- Invariant of a completed run of calls: every emitted
(timestamp, sequence) pair strictly dominates the starting state, the
pairs are pairwise strictly increasing, the IDs are strictly increasing,
and the state invariants persist. -/
theorem runCalls_sound :
    ∀ {tss : List (List Int)} {s : Snowflake} {outs : List CallOut} {sEnd : Snowflake},
    runCalls s tss = some (outs, sEnd) →
    WF s → 0 ≤ s.machineID → s.machineID ≤ maxMachineID →
    (∀ l ∈ tss, InRange s.startTime l) →
    (∀ o ∈ outs, lexLt (pairOf s) (o.last, o.seq) ∧
       o.id = packVal (o.last - s.startTime) s.machineID o.seq ∧
       s.startTime ≤ o.last ∧ o.last - s.startTime < 2 ^ 41 ∧
       0 ≤ o.seq ∧ o.seq ≤ maxSequence) ∧
    List.Pairwise (fun o1 o2 => lexLt (o1.last, o1.seq) (o2.last, o2.seq)) outs ∧
    List.Pairwise (fun o1 o2 => o1.id < o2.id) outs ∧
    WF sEnd ∧ sEnd.startTime = s.startTime ∧ sEnd.machineID = s.machineID := by
  intro tss
  induction tss with
  | nil =>
    intro s outs sEnd h hWF hm0 hm1 hR
    simp only [runCalls, Option.some.injEq, Prod.mk.injEq] at h
    obtain ⟨h1, h2⟩ := h
    subst h1 h2
    simp [List.Pairwise.nil]
    exact hWF
  | cons ts tss ih =>
    intro s outs sEnd h hWF hm0 hm1 hR
    simp only [runCalls] at h
    cases hn : nextID s ts with
    | none => rw [hn] at h; simp at h
    | some p =>
      obtain ⟨id, s1, rest⟩ := p
      rw [hn] at h
      dsimp only at h
      cases hr : runCalls s1 tss with
      | none => rw [hr] at h; simp at h
      | some q =>
        obtain ⟨outs1, sE⟩ := q
        rw [hr] at h
        dsimp only at h
        simp only [Option.some.injEq, Prod.mk.injEq] at h
        obtain ⟨houts, hsE⟩ := h
        subst hsE
        obtain ⟨hid, hoff0, hoff1, hWF1, hst1, hmach1, hlexs1, _⟩ :=
          nextID_fields hn hWF (hR ts (List.mem_cons_self ts tss))
        have hR1 : ∀ l ∈ tss, InRange s1.startTime l := by
          intro l hl
          rw [hst1]
          exact hR l (List.mem_cons_of_mem ts hl)
        obtain ⟨hall1, hpair1, hids1, hWFe, hste, hmache⟩ :=
          ih hr hWF1 (hmach1 ▸ hm0) (hmach1 ▸ hm1) hR1
        have hmaxM : maxMachineID = 2 ^ 10 - 1 := by decide
        have hmaxS : maxSequence = 2 ^ 12 - 1 := by decide
        -- facts about the head output
        have hhead : lexLt (pairOf s) (s1.lastTimestamp, s1.sequence) ∧
            id = packVal (s1.lastTimestamp - s.startTime) s.machineID s1.sequence ∧
            s.startTime ≤ s1.lastTimestamp ∧ s1.lastTimestamp - s.startTime < 2 ^ 41 ∧
            0 ≤ s1.sequence ∧ s1.sequence ≤ maxSequence := by
          refine ⟨hlexs1, ?_, ?_, ?_, hWF1.1, hWF1.2⟩
          · rw [hid, hst1, hmach1]
          · omega
          · omega
        -- per-element facts, transported from `s1` to `s`
        have hall : ∀ o ∈ outs1, lexLt (pairOf s) (o.last, o.seq) ∧
            o.id = packVal (o.last - s.startTime) s.machineID o.seq ∧
            s.startTime ≤ o.last ∧ o.last - s.startTime < 2 ^ 41 ∧
            0 ≤ o.seq ∧ o.seq ≤ maxSequence := by
          intro o ho
          obtain ⟨l1, l2, l3, l4, l5, l6⟩ := hall1 o ho
          refine ⟨lexLt_trans hlexs1 l1, ?_, ?_, ?_, l5, l6⟩
          · rw [l2, hst1, hmach1]
          · rw [← hst1]; exact l3
          · rw [← hst1]; exact l4
        subst houts
        refine ⟨?_, ?_, ?_, hWFe, by rw [hste, hst1], by rw [hmache, hmach1]⟩
        · intro o ho
          rcases List.mem_cons.mp ho with ho | ho
          · subst ho
            exact hhead
          · exact hall o ho
        · refine List.Pairwise.cons ?_ hpair1
          intro o ho
          exact (hall1 o ho).1
        · refine List.Pairwise.cons ?_ hids1
          intro o ho
          obtain ⟨m1, m2, m3, m4, m5, m6⟩ := hall o ho
          obtain ⟨k1, k2, k3, k4, k5, k6⟩ := hhead
          rw [k2, m2]
          have hp := (hall1 o ho).1
          unfold lexLt pairOf at hp
          refine packVal_lt (by omega) m4 hm0 (mach_lt_pow hm1) k5 (seq_lt_pow k6)
            m5 (seq_lt_pow m6) (by omega) ?_
          rcases hp with hl | ⟨hl, hl'⟩
          · exact Or.inl (by omega)
          · exact Or.inr ⟨by omega, by omega⟩

theorem lexLt_ne {a b : Int × Int} (h : lexLt a b) : a ≠ b := by
  unfold lexLt at h
  rintro rfl
  rcases h with h | ⟨h1, h2⟩ <;> omega

/-! ## The claims -/

/-- **C1** Uniqueness: over any sequence of completed `nextID` calls on
one instance (well-formed state, machine ID in range, clock readings
within the 41-bit lifetime of the epoch), no two calls return equal
`int64` values; each call strictly increases the pair
(lastTimestampMillis, sequence) in lexicographic order, and no two calls
emit the same pair. -/
theorem claim_C1_uniqueness (s : Snowflake) (tss : List (List Int))
    (outs : List CallOut) (sEnd : Snowflake)
    (hWF : WF s) (hm0 : 0 ≤ s.machineID) (hm1 : s.machineID ≤ maxMachineID)
    (hR : ∀ l ∈ tss, InRange s.startTime l)
    (h : runCalls s tss = some (outs, sEnd)) :
    List.Pairwise (fun o1 o2 => o1.id ≠ o2.id) outs ∧
    List.Chain' (fun o1 o2 => lexLt (o1.last, o1.seq) (o2.last, o2.seq)) outs ∧
    List.Pairwise (fun o1 o2 => (o1.last, o1.seq) ≠ (o2.last, o2.seq)) outs := by
  obtain ⟨hall, hpair, hids, _⟩ := runCalls_sound h hWF hm0 hm1 hR
  exact ⟨hids.imp fun hlt => ne_of_lt hlt, hpair.chain',
    hpair.imp fun hl => lexLt_ne hl⟩

theorem claim_C1_uniqueness_witness :
    WF ⟨0, 1, -1, 0⟩ ∧
    (List.Pairwise (fun o1 o2 => o1.id ≠ o2.id)
       ([⟨20975616, 5, 0⟩, ⟨20975617, 5, 1⟩, ⟨25169920, 6, 0⟩] : List CallOut) ∧
     List.Chain' (fun o1 o2 => lexLt (o1.last, o1.seq) (o2.last, o2.seq))
       ([⟨20975616, 5, 0⟩, ⟨20975617, 5, 1⟩, ⟨25169920, 6, 0⟩] : List CallOut) ∧
     List.Pairwise (fun o1 o2 => (o1.last, o1.seq) ≠ (o2.last, o2.seq))
       ([⟨20975616, 5, 0⟩, ⟨20975617, 5, 1⟩, ⟨25169920, 6, 0⟩] : List CallOut)) :=
  ⟨by decide,
   claim_C1_uniqueness ⟨0, 1, -1, 0⟩ [[5], [5], [6]]
     [⟨20975616, 5, 0⟩, ⟨20975617, 5, 1⟩, ⟨25169920, 6, 0⟩] ⟨0, 1, 6, 0⟩
     (by decide) (by decide) (by decide) (by decide) (by decide)⟩

/-- **C2** Monotonicity: along any sequence of completed `nextID` calls on
one instance (call A returning before call B begins), the returned values
are strictly increasing. -/
theorem claim_C2_monotonicity (s : Snowflake) (tss : List (List Int))
    (outs : List CallOut) (sEnd : Snowflake)
    (hWF : WF s) (hm0 : 0 ≤ s.machineID) (hm1 : s.machineID ≤ maxMachineID)
    (hR : ∀ l ∈ tss, InRange s.startTime l)
    (h : runCalls s tss = some (outs, sEnd)) :
    List.Pairwise (fun o1 o2 => o1.id < o2.id) outs :=
  (runCalls_sound h hWF hm0 hm1 hR).2.2.1

theorem claim_C2_monotonicity_witness :
    WF ⟨0, 1, -1, 0⟩ ∧
    List.Pairwise (fun o1 o2 => o1.id < o2.id)
      ([⟨29364224, 7, 0⟩, ⟨29364225, 7, 1⟩, ⟨37752832, 9, 0⟩] : List CallOut) :=
  ⟨by decide,
   claim_C2_monotonicity ⟨0, 1, -1, 0⟩ [[7], [7], [9]]
     [⟨29364224, 7, 0⟩, ⟨29364225, 7, 1⟩, ⟨37752832, 9, 0⟩] ⟨0, 1, 9, 0⟩
     (by decide) (by decide) (by decide) (by decide) (by decide)⟩

/-- **C3** Bit-layout round-trip: the value returned by a completed
`nextID` call equals
`((now - epochMillis) << 22) | (machineId << 12) | sequence`, and masking
bits 0..11 recovers the sequence while shifting by 12 and masking 10 bits
recovers the machine ID exactly. -/
theorem claim_C3_bit_layout (s : Snowflake) (ts : List Int) (id : Int)
    (s' : Snowflake) (ts' : List Int)
    (hWF : WF s) (hm0 : 0 ≤ s.machineID) (hm1 : s.machineID ≤ maxMachineID)
    (hR : InRange s.startTime ts)
    (h : nextID s ts = some (id, s', ts')) :
    id = int64Or
           (int64Or (int64Shl (s'.lastTimestamp - s.startTime) (machineIDBits + sequenceBits))
                    (int64Shl s.machineID sequenceBits))
           s'.sequence ∧
    int64And id maxSequence = s'.sequence ∧
    int64And (int64Shr id sequenceBits) maxMachineID = s.machineID := by
  obtain ⟨hid, hoff0, hoff1, hWF', hst, hmach, _, _⟩ := nextID_fields h hWF hR
  have hm0' : 0 ≤ s'.machineID := by rw [hmach]; exact hm0
  have hm1' : s'.machineID < 2 ^ 10 := by rw [hmach]; exact mach_lt_pow hm1
  obtain ⟨hex1, hex2⟩ :=
    packVal_extract hoff0 hoff1 hm0' hm1' hWF'.1 (seq_lt_pow hWF'.2)
  refine ⟨?_, ?_, ?_⟩
  · rw [hid]
    unfold packVal
    rw [hst, hmach]
  · rw [hid]
    exact hex1
  · rw [hid, ← hmach]
    exact hex2

theorem claim_C3_bit_layout_witness :
    WF ⟨0, 3, -1, 0⟩ ∧
    ((41955328 : Int) = int64Or
        (int64Or (int64Shl ((10 : Int) - 0) (machineIDBits + sequenceBits))
                 (int64Shl (3 : Int) sequenceBits)) 0 ∧
     int64And 41955328 maxSequence = 0 ∧
     int64And (int64Shr 41955328 sequenceBits) maxMachineID = 3) :=
  ⟨by decide,
   claim_C3_bit_layout ⟨0, 3, -1, 0⟩ [10] 41955328 ⟨0, 3, 10, 0⟩ []
     (by decide) (by decide) (by decide) (by decide) (by decide)⟩

/-- **C9** Sign bit always zero: under the preconditions that the machine
ID is in [0, 1023], the sequence in [0, 4095] and every clock reading
yields an epoch offset in [0, 2^41), the ID returned by a completed
`nextID` call is non-negative and fits in 63 bits. -/
theorem claim_C9_sign_bit (s : Snowflake) (ts : List Int) (id : Int)
    (s' : Snowflake) (ts' : List Int)
    (hWF : WF s) (hm0 : 0 ≤ s.machineID) (hm1 : s.machineID ≤ maxMachineID)
    (hR : InRange s.startTime ts)
    (h : nextID s ts = some (id, s', ts')) :
    0 ≤ id ∧ id < 2 ^ 63 := by
  obtain ⟨hid, hoff0, hoff1, hWF', hst, hmach, _, _⟩ := nextID_fields h hWF hR
  have hm0' : 0 ≤ s'.machineID := by rw [hmach]; exact hm0
  have hm1' : s'.machineID < 2 ^ 10 := by rw [hmach]; exact mach_lt_pow hm1
  rw [hid]
  exact packVal_range hoff0 hoff1 hm0' hm1' hWF'.1 (seq_lt_pow hWF'.2)

theorem claim_C9_sign_bit_witness :
    WF ⟨0, 1023, -1, 4095⟩ ∧
    ((0 : Int) ≤ 58716160 ∧ (58716160 : Int) < 2 ^ 63) :=
  ⟨by decide,
   claim_C9_sign_bit ⟨0, 1023, -1, 4095⟩ [13] 58716160 ⟨0, 1023, 13, 0⟩ []
     (by decide) (by decide) (by decide) (by decide) (by decide)⟩

/-- **C4** counterexample: with `lastTimestampMillis = 5` and successive
wall-clock readings 4, 5, the rollback loop is entered (4 < 5) and the
re-read value 5 satisfies `now ≥ lastTimestampMillis`, yet the call does
not proceed — the loop keeps spinning (the model runs out of readings).
It proceeds only once a reading strictly exceeds 5, as the run with
readings 4, 5, 6 shows. -/
theorem claim_C4_counterexample :
    nextID ⟨0, 1, 5, 0⟩ [4, 5] = none ∧
    ((4 : Int) < 5 ∧ (5 : Int) ≥ 5) ∧
    nextID ⟨0, 1, 5, 0⟩ [4, 5, 6] = some (25169920, ⟨0, 1, 6, 0⟩, []) := by
  decide

/-- **C4** (amended): within a `nextID` call, if the freshly read
wall-clock time is strictly less than `lastTimestampMillis`, the routine
repeatedly re-reads the wall clock and proceeds as soon as the reading
strictly exceeds `lastTimestampMillis` (exit condition
`now > lastTimestampMillis`): the recorded timestamp is the first reading
strictly greater than `lastTimestampMillis` (all readings consumed before
it being `≤ lastTimestampMillis`), the sequence resets to 0, and the
emitted (timestamp, sequence) pair still strictly increases — no
duplicate or out-of-order ID is produced during the rollback window. -/
theorem claim_C4_rollback_wait (s : Snowflake) (t : Int) (ts : List Int)
    (id : Int) (s' : Snowflake) (ts' : List Int)
    (hroll : t < s.lastTimestamp)
    (h : nextID s (t :: ts) = some (id, s', ts')) :
    s.lastTimestamp < s'.lastTimestamp ∧ s'.sequence = 0 ∧
    (∃ pre, t :: ts = pre ++ s'.lastTimestamp :: ts' ∧
        ∀ u ∈ pre, u ≤ s.lastTimestamp) ∧
    lexLt (pairOf s) (pairOf s') := by
  simp only [nextID] at h
  unfold rollbackStep at h
  rw [if_pos hroll] at h
  cases hbw : busyWait s.lastTimestamp t ts with
  | none => rw [hbw] at h; simp at h
  | some p =>
    obtain ⟨now, ts1⟩ := p
    rw [hbw] at h
    dsimp only at h
    have hgt := busyWait_gt hbw
    unfold seqStep at h
    rw [if_neg (by omega)] at h
    dsimp only at h
    simp only [Option.some.injEq, Prod.mk.injEq] at h
    obtain ⟨hid, hs', hts'⟩ := h
    have hlast : s'.lastTimestamp = now := by rw [← hs']
    have hseq : s'.sequence = 0 := by rw [← hs']
    rcases busyWait_sound hbw with ⟨h1, _, _⟩ | ⟨_, pre, h2, h3, _⟩
    · omega
    · refine ⟨by omega, hseq, ⟨t :: pre, ?_, ?_⟩, ?_⟩
      · rw [hlast, ← hts', List.cons_append, h2]
      · intro u hu
        rcases List.mem_cons.mp hu with hu | hu
        · omega
        · exact h3 u hu
      · unfold lexLt pairOf
        exact Or.inl (by omega)

theorem claim_C4_rollback_wait_witness :
    (4 : Int) < 5 ∧
    ((5 : Int) < 6 ∧
     Snowflake.sequence ⟨0, 1, 6, 0⟩ = 0 ∧
     (∃ pre, (4 : Int) :: [5, 6] = pre ++ (6 : Int) :: ([] : List Int) ∧
        ∀ u ∈ pre, u ≤ (5 : Int)) ∧
     lexLt (pairOf ⟨0, 1, 5, 0⟩) (pairOf ⟨0, 1, 6, 0⟩)) :=
  ⟨by decide,
   claim_C4_rollback_wait ⟨0, 1, 5, 0⟩ 4 [5, 6] 25169920 ⟨0, 1, 6, 0⟩ []
     (by decide) (by decide)⟩

theorem nextID_WF {s : Snowflake} {ts : List Int} {id : Int}
    {s' : Snowflake} {ts' : List Int}
    (h : nextID s ts = some (id, s', ts')) (hWF : WF s) : WF s' := by
  obtain ⟨_, _, _, _, _, _, hcase⟩ := nextID_sound h
  unfold WF at hWF ⊢
  rcases hcase with ⟨_, h2⟩ | ⟨_, h2, h3⟩
  · exact ⟨by rw [h2], by rw [h2]; decide⟩
  · constructor <;> omega

/-- In a run whose completed calls all record the same millisecond `L`,
starting from a state already at `L`, the sequence numbers are the
consecutive values following the starting sequence, and the millisecond's
12-bit budget is never exceeded. -/
theorem runCalls_same_ms :
    ∀ {tss : List (List Int)} {s : Snowflake} {L : Int} {outs : List CallOut}
      {sEnd : Snowflake},
    runCalls s tss = some (outs, sEnd) → WF s → s.lastTimestamp = L →
    (∀ o ∈ outs, o.last = L) →
    outs.map (fun o => o.seq) =
      (List.range outs.length).map (fun (i : Nat) => s.sequence + 1 + (i : Int)) ∧
    s.sequence + outs.length ≤ maxSequence := by
  intro tss
  induction tss with
  | nil =>
    intro s L outs sEnd h hWF hL hsame
    simp only [runCalls, Option.some.injEq, Prod.mk.injEq] at h
    obtain ⟨h1, _⟩ := h
    subst h1
    refine ⟨by simp, ?_⟩
    unfold WF at hWF
    simp only [List.length_nil]
    omega
  | cons ts tss ih =>
    intro s L outs sEnd h hWF hL hsame
    simp only [runCalls] at h
    cases hn : nextID s ts with
    | none => rw [hn] at h; simp at h
    | some p =>
      obtain ⟨id, s1, rest⟩ := p
      rw [hn] at h
      dsimp only at h
      cases hr : runCalls s1 tss with
      | none => rw [hr] at h; simp at h
      | some q =>
        obtain ⟨outs1, sE⟩ := q
        rw [hr] at h
        dsimp only at h
        simp only [Option.some.injEq, Prod.mk.injEq] at h
        obtain ⟨houts, hsE⟩ := h
        have hWF1 := nextID_WF hn hWF
        obtain ⟨_, _, _, _, _, _, hcase⟩ := nextID_sound hn
        have hheadL : s1.lastTimestamp = L :=
          hsame ⟨id, s1.lastTimestamp, s1.sequence⟩
            (by rw [← houts]; exact List.mem_cons_self _ _)
        have hinc : s1.sequence = s.sequence + 1 ∧ s.sequence + 1 ≤ maxSequence := by
          rcases hcase with ⟨h1, _⟩ | ⟨_, h2, h3⟩
          · omega
          · exact ⟨h2, h3⟩
        have hsame1 : ∀ o ∈ outs1, o.last = L := by
          intro o ho
          exact hsame o (by rw [← houts]; exact List.mem_cons_of_mem _ ho)
        obtain ⟨hmap1, hcap1⟩ := ih hr hWF1 hheadL hsame1
        subst houts
        constructor
        · simp only [List.map_cons, List.length_cons, List.range_succ_eq_map,
            List.map_map]
          congr 1
          · push_cast
            omega
          · rw [hmap1]
            apply List.map_congr_left
            intro i hi
            simp only [Function.comp_apply]
            push_cast
            omega
        · simp only [List.length_cons]
          push_cast
          omega

/-- **C5** Sequence-overflow handling and throughput cap: when the fresh
reading equals `lastTimestampMillis`, the sequence is incremented; once it
would exceed 4095 the call re-reads the clock until it strictly exceeds
`lastTimestampMillis` and resets the sequence to 0; consequently, within
one observed millisecond the issued sequence values are the consecutive
values after the starting one and never leave [0, 4095] — at most 4096 IDs
per millisecond, with no collision and no dropped request. -/
theorem claim_C5_sequence_overflow :
    (∀ (s : Snowflake) (ts : List Int), s.sequence < maxSequence →
       nextID s (s.lastTimestamp :: ts) =
         some (packID { s with sequence := s.sequence + 1 },
               { s with sequence := s.sequence + 1 }, ts)) ∧
    (∀ (s : Snowflake) (ts : List Int) (id : Int) (s' : Snowflake)
       (ts' : List Int),
       s.sequence = maxSequence →
       nextID s (s.lastTimestamp :: ts) = some (id, s', ts') →
       s'.sequence = 0 ∧ s.lastTimestamp < s'.lastTimestamp) ∧
    (∀ (s : Snowflake) (L : Int) (tss : List (List Int)) (outs : List CallOut)
       (sEnd : Snowflake),
       runCalls s tss = some (outs, sEnd) → WF s → s.lastTimestamp = L →
       (∀ o ∈ outs, o.last = L) →
       outs.map (fun o => o.seq) =
         (List.range outs.length).map (fun (i : Nat) => s.sequence + 1 + (i : Int)) ∧
       s.sequence + outs.length ≤ maxSequence) := by
  refine ⟨?_, ?_, ?_⟩
  · intro s ts hlt
    simp only [nextID]
    unfold rollbackStep
    rw [if_neg (lt_irrefl s.lastTimestamp)]
    dsimp only
    unfold seqStep
    rw [if_pos rfl, if_neg (by omega)]
  · intro s ts id s' ts' hseq h
    simp only [nextID] at h
    unfold rollbackStep at h
    rw [if_neg (lt_irrefl s.lastTimestamp)] at h
    dsimp only at h
    unfold seqStep at h
    rw [if_pos rfl, if_pos (by omega)] at h
    cases hbw : busyWait s.lastTimestamp s.lastTimestamp ts with
    | none => rw [hbw] at h; simp at h
    | some p =>
      obtain ⟨n2, l2⟩ := p
      rw [hbw] at h
      dsimp only at h
      simp only [Option.some.injEq, Prod.mk.injEq] at h
      obtain ⟨_, hs', _⟩ := h
      have hgt := busyWait_gt hbw
      constructor
      · rw [← hs']
      · rw [← hs']
        exact hgt
  · intro s L tss outs sEnd h hWF hL hsame
    exact runCalls_same_ms h hWF hL hsame

theorem claim_C5_sequence_overflow_witness :
    ((3 : Int) < maxSequence ∧
     nextID ⟨0, 1, 5, 3⟩ [(5 : Int)] =
       some (packID ⟨0, 1, 5, 3 + 1⟩, ⟨0, 1, 5, 3 + 1⟩, [])) ∧
    ((4095 : Int) = maxSequence ∧
     Snowflake.sequence ⟨0, 1, 7, 0⟩ = 0 ∧ (5 : Int) < 7) ∧
    (WF ⟨0, 1, 5, 0⟩ ∧
     ([⟨20975617, 5, 1⟩, ⟨20975618, 5, 2⟩] : List CallOut).map (fun o => o.seq) =
       (List.range ([⟨20975617, 5, 1⟩, ⟨20975618, 5, 2⟩] : List CallOut).length).map
         (fun (i : Nat) => (0 : Int) + 1 + (i : Int)) ∧
     (0 : Int) + ([⟨20975617, 5, 1⟩, ⟨20975618, 5, 2⟩] : List CallOut).length ≤
       maxSequence) :=
  ⟨⟨by decide, claim_C5_sequence_overflow.1 ⟨0, 1, 5, 3⟩ [] (by decide)⟩,
   ⟨by decide,
    claim_C5_sequence_overflow.2.1 ⟨0, 1, 5, 4095⟩ [5, 7] 29364224 ⟨0, 1, 7, 0⟩ []
      (by decide) (by decide)⟩,
   ⟨by decide,
    claim_C5_sequence_overflow.2.2 ⟨0, 1, 5, 0⟩ 5 [[5], [5]]
      [⟨20975617, 5, 1⟩, ⟨20975618, 5, 2⟩] ⟨0, 1, 5, 2⟩
      (by decide) (by decide) (by decide) (by decide)⟩⟩

theorem resolveStartTime_error {loadLocOK : Bool} {parseInLoc : String → Option Int}
    {cfg : Config} {e : InitError}
    (h : resolveStartTime loadLocOK parseInLoc cfg = Except.error e) :
    e = InitError.tzLoadFailed ∨ e = InitError.invalidStartTime := by
  unfold resolveStartTime at h
  split at h
  · simp at h
  · split at h
    · simp only [Except.error.injEq] at h
      exact Or.inl h.symm
    · split at h
      · simp only [Except.error.injEq] at h
        exact Or.inr h.symm
      · simp at h

/-- **C6** Machine-ID range validation: `Init` fails with
`InvalidMachineId` if and only if the configured machine ID lies outside
[0, 1023] (`maxMachineID = 1023`); an out-of-range value is never
silently clamped into a successful initialization. -/
theorem claim_C6_machine_id_range (loadLocOK : Bool)
    (parseInLoc : String → Option Int) (cfg : Config) (now : Int) :
    (Init loadLocOK parseInLoc cfg now = Except.error InitError.invalidMachineID ↔
      (cfg.MachineID < 0 ∨ cfg.MachineID > maxMachineID)) ∧
    maxMachineID = 1023 := by
  refine ⟨⟨?_, ?_⟩, by decide⟩
  · intro h
    by_contra hc
    unfold Init at h
    rw [if_neg hc] at h
    cases hrs : resolveStartTime loadLocOK parseInLoc cfg with
    | error e =>
      rw [hrs] at h
      dsimp only at h
      simp only [Except.error.injEq] at h
      rcases resolveStartTime_error hrs with he | he <;> rw [he] at h <;> exact
        absurd h (by decide)
    | ok st =>
      rw [hrs] at h
      dsimp only at h
      split at h
      · simp only [Except.error.injEq] at h
        exact absurd h (by decide)
      · simp at h
  · intro h
    unfold Init
    rw [if_pos h]

theorem claim_C6_machine_id_range_witness :
    ((Init true (fun _ => none) ⟨1024, ""⟩ 0 =
        Except.error InitError.invalidMachineID ↔
      ((1024 : Int) < 0 ∨ (1024 : Int) > maxMachineID)) ∧
     maxMachineID = 1023) :=
  claim_C6_machine_id_range true (fun _ => none) ⟨1024, ""⟩ 0

theorem Init_ok_state {loadLocOK : Bool} {parseInLoc : String → Option Int}
    {cfg : Config} {now : Int} {s : Snowflake}
    (h : Init loadLocOK parseInLoc cfg now = Except.ok s) :
    s.lastTimestamp = -1 ∧ s.sequence = 0 ∧ s.machineID = cfg.MachineID := by
  unfold Init at h
  split at h
  · simp at h
  · split at h
    · simp at h
    · split at h
      · simp at h
      · simp only [Except.ok.injEq] at h
        rw [← h]
        exact ⟨rfl, rfl, rfl⟩

/-- A `nextID` call from a state whose recorded timestamp lies strictly
before the fresh reading completes immediately with sequence 0. -/
theorem nextID_fresh {s : Snowflake} {t : Int} (ts : List Int)
    (h : s.lastTimestamp < t) :
    nextID s (t :: ts) =
      some (packID { s with lastTimestamp := t, sequence := 0 },
            { s with lastTimestamp := t, sequence := 0 }, ts) := by
  simp only [nextID]
  unfold rollbackStep
  rw [if_neg (by omega)]
  dsimp only
  unfold seqStep
  rw [if_neg (by omega)]

/-- **C7** Uninitialized call: with no published instance, `GetID` fails
with `NotInitialized` and leaves the global instance untouched (still
none); after any successful `Init` the published instance has its unset
sentinel `lastTimestamp = -1`, so a retried call with a non-negative
clock reading completes successfully. -/
theorem claim_C7_uninitialized :
    (∀ ts : List Int,
       GetIDGlobal none ts = (Except.error GetError.notInitialized, none)) ∧
    (∀ (loadLocOK : Bool) (parseInLoc : String → Option Int) (cfg : Config)
       (now : Int) (s : Snowflake),
       Init loadLocOK parseInLoc cfg now = Except.ok s →
       ∀ (t : Int) (ts : List Int), 0 ≤ t →
         GetIDGlobal (some s) (t :: ts) =
           (Except.ok (some (packID { s with lastTimestamp := t, sequence := 0 },
                             { s with lastTimestamp := t, sequence := 0 }, ts)),
            some { s with lastTimestamp := t, sequence := 0 })) := by
  constructor
  · intro ts
    rfl
  · intro loadLocOK parseInLoc cfg now s hinit t ts ht
    obtain ⟨hlast, _, _⟩ := Init_ok_state hinit
    have hfresh := nextID_fresh (s := s) (t := t) ts (by omega)
    unfold GetIDGlobal
    dsimp only
    rw [hfresh]

theorem claim_C7_uninitialized_witness :
    GetIDGlobal none [1] = (Except.error GetError.notInitialized, none) ∧
    (0 : Int) ≤ 1672502400005 ∧
    GetIDGlobal (some ⟨1672502400000, 0, -1, 0⟩) [1672502400005] =
      (Except.ok (some (packID ⟨1672502400000, 0, 1672502400005, 0⟩,
                        ⟨1672502400000, 0, 1672502400005, 0⟩, [])),
       some ⟨1672502400000, 0, 1672502400005, 0⟩) :=
  ⟨claim_C7_uninitialized.1 [1], by decide,
   claim_C7_uninitialized.2 true (fun _ => none) ⟨0, ""⟩ 1672502400000
     ⟨1672502400000, 0, -1, 0⟩ (by decide) 1672502400005 [] (by decide)⟩

/-- **C8** Future-epoch rejection and initialization atomicity: once the
machine-ID check passes and the start time resolves to an epoch `e`,
`Init` fails with `StartTimeInFuture` exactly when `e` is strictly later
than the current wall-clock reading; and every failing `Init` call leaves
the previously published instance unchanged. -/
theorem claim_C8_future_epoch :
    (∀ (loadLocOK : Bool) (parseInLoc : String → Option Int) (cfg : Config)
       (now e : Int),
       ¬(cfg.MachineID < 0 ∨ cfg.MachineID > maxMachineID) →
       resolveStartTime loadLocOK parseInLoc cfg = Except.ok e →
       (Init loadLocOK parseInLoc cfg now = Except.error InitError.startTimeInFuture ↔
         now < e)) ∧
    (∀ (inst : Option Snowflake) (loadLocOK : Bool)
       (parseInLoc : String → Option Int) (cfg : Config) (now : Int)
       (err : InitError),
       Init loadLocOK parseInLoc cfg now = Except.error err →
       InitGlobal inst loadLocOK parseInLoc cfg now = (inst, some err)) := by
  constructor
  · intro loadLocOK parseInLoc cfg now e hm hres
    unfold Init
    rw [if_neg hm, hres]
    dsimp only
    by_cases hgt : e > now
    · rw [if_pos hgt]
      exact iff_of_true rfl hgt
    · rw [if_neg hgt]
      exact iff_of_false (by simp) (by omega)
  · intro inst loadLocOK parseInLoc cfg now err h
    unfold InitGlobal
    rw [h]

theorem claim_C8_future_epoch_witness :
    (¬((5 : Int) < 0 ∨ (5 : Int) > maxMachineID) ∧
     (Init true (fun _ => some 100) ⟨5, "2023-01-01"⟩ 50 =
        Except.error InitError.startTimeInFuture ↔ (50 : Int) < 100)) ∧
    InitGlobal none true (fun _ => some 100) ⟨5, "2023-01-01"⟩ 50 =
      (none, some InitError.startTimeInFuture) :=
  ⟨⟨by decide,
    claim_C8_future_epoch.1 true (fun _ => some 100) ⟨5, "2023-01-01"⟩ 50 100
      (by decide) (by decide)⟩,
   claim_C8_future_epoch.2 none true (fun _ => some 100) ⟨5, "2023-01-01"⟩ 50
     InitError.startTimeInFuture (by decide)⟩

/-- **C10** Extra failure mode before date parsing: with a non-empty
start-time string (and an in-range machine ID), a failing
"Asia/Shanghai" timezone load aborts `Init` with the timezone-load error
— a failure distinct from all four spec error kinds' `InvalidStartTime`,
`InvalidMachineId` and `StartTimeInFuture` — even when the supplied string
would parse successfully; parsing (and hence `InvalidStartTime`) is only
reachable when the load succeeds. -/
theorem claim_C10_tz_load (parseInLoc : String → Option Int) (cfg : Config)
    (now : Int)
    (hm : ¬(cfg.MachineID < 0 ∨ cfg.MachineID > maxMachineID))
    (hne : cfg.StartTime ≠ "") :
    Init false parseInLoc cfg now = Except.error InitError.tzLoadFailed ∧
    InitError.tzLoadFailed ≠ InitError.invalidStartTime ∧
    InitError.tzLoadFailed ≠ InitError.invalidMachineID ∧
    InitError.tzLoadFailed ≠ InitError.startTimeInFuture := by
  refine ⟨?_, by decide, by decide, by decide⟩
  unfold Init resolveStartTime
  rw [if_neg hm, if_neg hne, if_pos (by simp)]

theorem claim_C10_tz_load_witness :
    ¬((0 : Int) < 0 ∨ (0 : Int) > maxMachineID) ∧ "2023-01-01" ≠ "" ∧
    (Init false (fun _ => some 0) ⟨0, "2023-01-01"⟩ 100 =
       Except.error InitError.tzLoadFailed ∧
     InitError.tzLoadFailed ≠ InitError.invalidStartTime ∧
     InitError.tzLoadFailed ≠ InitError.invalidMachineID ∧
     InitError.tzLoadFailed ≠ InitError.startTimeInFuture) :=
  ⟨by decide, by decide,
   claim_C10_tz_load (fun _ => some 0) ⟨0, "2023-01-01"⟩ 100
     (by decide) (by decide)⟩

end SnowflakeGo
